import Mathlib

/-!
Verification development for the myBatch repository.

Each section shallowly embeds one part of the Python source:
* `Corpreg` — `src/corpreg/workflow.py` (`merge`): DuckDB view algebra over
  parquet rows, modelled as list operations on row records.
* `Store` — the file write paths of `src/corpreg/workflow.py` (tmp +
  `os.replace`) and `src/sagikoza_fetch/run.py` (`save_data`, direct write),
  modelled as an operational step machine over a two-path file system.
* `Keiba` — `src/keiba_scraper/run.py` and `src/scripts/keiba_scraper.py`:
  identifier expansion, CLI empty-listing check, the thread-pool fetch
  aggregation, and `merge_race_and_odds`.
* `Enrich` — `src/corpreg_enrich/run.py` (`enrich_corporate_names`).

External collaborators (DuckDB engine, keibascraper network client, SudachiPy
tokenizer) are passed in as oracle functions, exactly as the spec treats them
(opaque capabilities).
-/

namespace Corpreg

/-- A row of the freshly fetched NTA file (`new_file`).  Fields beyond the
key/version pair are collapsed into `name` (payload) and `latest` (the
source-provided latest flag column); `update_date` is nullable, matching the
parquet column.  From `src/corpreg/workflow.py`. -/
structure NRow where
  corporate_number : String
  update_date : Option String
  name : String
  latest : String
deriving DecidableEq, Repr

/-- A row of the master file (`base_file`): an `NRow` plus the four columns the
merge adds (`legal_form`, `brand_name`, `brand_kana`, `reliability`). -/
structure BRow where
  corporate_number : String
  update_date : Option String
  name : String
  latest : String
  legal_form : Option String
  brand_name : Option String
  brand_kana : Option String
  reliability : Int
deriving DecidableEq, Repr

/-- The projection `SELECT n.*, CAST(NULL AS VARCHAR) AS legal_form, ...,
CAST(0 AS INTEGER) AS reliability` applied to each new row. -/
def addEnrich (n : NRow) : BRow :=
  ⟨n.corporate_number, n.update_date, n.name, n.latest, none, none, none, 0⟩

/-- SQL equality of two nullable values: `NULL = x` is never true. -/
def sqlEq (a b : Option String) : Bool :=
  match a, b with
  | some x, some y => x = y
  | _, _ => false

/-- The join predicate of the `ANTI JOIN` in `merge`:
`n.corporate_number = b.corporate_number AND n.update_date = b.update_date`. -/
def matchesBase (base : List BRow) (n : NRow) : Bool :=
  base.any fun b => n.corporate_number = b.corporate_number && sqlEq n.update_date b.update_date

/-- `merge(new_file, base_file)` of `src/corpreg/workflow.py`, at the row
level.  `base = none` models a missing `base_file` (the `os.path.exists`
branch): the new rows, with the enrichment columns added, become the base.
Otherwise the result is `SELECT * FROM base_data UNION ALL SELECT * FROM
unique_new`, where `unique_new` is the anti-join of the new rows against the
base rows on `(corporate_number, update_date)`. -/
def merge (newRows : List NRow) (base : Option (List BRow)) : List BRow :=
  match base with
  | none => newRows.map addEnrich
  | some baseRows =>
      baseRows ++ (newRows.filter fun n => !(matchesBase baseRows n)).map addEnrich

/-- Project a master row back to the new-file schema (used to state the
spec's "merge a dataset with itself as both new and base"). -/
def projN (b : BRow) : NRow :=
  ⟨b.corporate_number, b.update_date, b.name, b.latest⟩

/-- Rows of a dataset carrying `latest = '1'` for a given entity key. -/
def latestRows (rows : List BRow) (key : String) : List BRow :=
  rows.filter fun r => r.corporate_number = key && r.latest = "1"

/-- Total order on nullable version strings used by the spec: lexicographic on
the string, with a missing version as the minimum. -/
def verLe (a b : Option String) : Bool :=
  match a, b with
  | none, _ => true
  | some _, none => false
  | some x, some y => decide (x ≤ y)

/-- The spec's merged-dataset invariant, as the claim states it: for every
entity key present, exactly one row has `latest = true`, and that row's
version is maximal among the rows sharing the key. -/
def latestInvariant (rows : List BRow) : Prop :=
  ∀ r ∈ rows,
    (latestRows rows r.corporate_number).length = 1 ∧
    ∀ rl ∈ latestRows rows r.corporate_number,
      ∀ rx ∈ rows, rx.corporate_number = r.corporate_number →
        verLe rx.update_date rl.update_date = true

instance (rows : List BRow) : Decidable (latestInvariant rows) := by
  unfold latestInvariant
  infer_instance

/-- Duplicate test of the claimed dedup step: identical on the entity-key and
version fields. -/
def dupKey (a b : BRow) : Bool :=
  a.corporate_number = b.corporate_number && a.update_date = b.update_date

/-- Remove duplicates on `(corporate_number, update_date)`, keeping the first
occurrence. -/
def dedupFirst (l : List BRow) : List BRow :=
  l.foldl (fun acc x => if acc.any fun y => dupKey y x then acc else acc ++ [x]) []

/-- Modelled from the spec's words (claim C2): concatenate the new rows before
the base rows, then remove exact duplicates on the entity-key and version
fields keeping the first occurrence, so a new-snapshot row wins a tie. -/
def specMergeNewFirst (newRows : List NRow) (baseRows : List BRow) : List BRow :=
  dedupFirst (newRows.map addEnrich ++ baseRows)

end Corpreg

namespace Store

/-- The two file paths that matter to the atomic-store claim: the canonical
output path and its sibling temporary path (`base_file + ".tmp"`). -/
inductive FPath where
  | canon : FPath
  | tmp : FPath
deriving DecidableEq, Repr

/-- The file system restricted to the two paths; `none` means the path does
not exist. File content is a list of opaque chunks. -/
structure FS where
  canon : Option (List Nat)
  tmp : Option (List Nat)
deriving DecidableEq, Repr

def FS.get (fs : FS) : FPath → Option (List Nat)
  | .canon => fs.canon
  | .tmp => fs.tmp

def FS.set (fs : FS) : FPath → Option (List Nat) → FS
  | .canon, v => { fs with canon := v }
  | .tmp, v => { fs with tmp := v }

/-- One primitive file operation: open-for-write (truncating), append one
chunk, or `os.replace` (atomic rename onto the destination). -/
inductive FOp where
  | openTrunc : FPath → FOp
  | append : FPath → Nat → FOp
  | rename : FPath → FPath → FOp
deriving DecidableEq, Repr

def stepFS (fs : FS) : FOp → FS
  | .openTrunc p => fs.set p (some [])
  | .append p b =>
      match fs.get p with
      | some l => fs.set p (some (l ++ [b]))
      | none => fs
  | .rename src dst => (fs.set dst (fs.get src)).set src none

def runFS (fs : FS) (ops : List FOp) : FS :=
  ops.foldl stepFS fs

/-- The write path of `merge` in `src/corpreg/workflow.py`: write the dataset
chunk by chunk to `base_file + ".tmp"`, then `os.replace(tmp_out, base_file)`. -/
def corpregSave (data : List Nat) : List FOp :=
  FOp.openTrunc .tmp :: data.map (FOp.append .tmp) ++ [FOp.rename .tmp .canon]

/-- The write path of `save_data` in `src/sagikoza_fetch/run.py`: the
ParquetWriter is opened directly on `output_file` (truncating it) and the
table is written there chunk by chunk; no temporary path, no rename. -/
def sagikozaSave (data : List Nat) : List FOp :=
  FOp.openTrunc .canon :: data.map (FOp.append .canon)

/-- Whether an operation mentions the canonical path at all. -/
def touchesCanon : FOp → Bool
  | .openTrunc p => p = .canon
  | .append p _ => p = .canon
  | .rename src dst => src = .canon || dst = .canon

end Store

namespace Keiba

/-- Python strings of the identifier-manipulating code are modelled as lists
of characters, so that slicing (`[:4]`, `[4:]`, `[-2:]`) and concatenation
are ordinary list operations. -/
abbrev Ident := List Char

/-- Python's `str.zfill(w)`: left-pad with `'0'` up to width `w`. -/
def zfill (w : Nat) (s : List Char) : List Char :=
  List.replicate (w - s.length) '0' ++ s

/-- Decimal value of a digit string (used to state "ascending numeric
order" of the generated suffixes). -/
def digitsVal (s : List Char) : Nat :=
  s.foldl (fun a c => a * 10 + (c.toNat - 48)) 0

/-- `expand_race_ids` of `src/keiba_scraper/run.py`.  `raceList` is the
external `keibascraper.race_list(year, month)` capability.  Length 12 returns
the input unchanged; length 10 appends `str(i).zfill(2)` for `i` in
`range(1, 13)`; length 6 delegates to `race_list(base_race_id[:4],
base_race_id[4:])`; any other length raises `ValueError`. -/
def expandRaceIds (raceList : Ident → Ident → List Ident) (s : Ident) :
    Except String (List Ident) :=
  if s.length = 12 then .ok [s]
  else if s.length = 10 then
    .ok ((List.range' 1 12).map fun i => s ++ zfill 2 (Nat.toDigits 10 i))
  else if s.length = 6 then .ok (raceList (s.take 4) (s.drop 4))
  else .error "Race ID must be 6, 10, or 12 characters long."

/-- `expand_race_id` of `src/scripts/keiba_scraper.py`: same lengths 12 and
10, but no length-6 branch — anything else raises `ValueError`. -/
def expandRaceId (s : Ident) : Except String (List Ident) :=
  if s.length = 12 then .ok [s]
  else if s.length = 10 then
    .ok ((List.range' 1 12).map fun i => s ++ zfill 2 (Nat.toDigits 10 i))
  else .error "Invalid race_id length"

/-- `parse_arguments` of `src/scripts/keiba_scraper.py`, restricted to what
the claims need: `args` is `sys.argv[1:]`; `.error 1` is `sys.exit(1)`.
Length 10 expands via `expand_race_id`; length 6 calls
`race_list(race_id[:4], race_id[-2:])` and exits when the listing is empty;
length 12 is passed through; anything else (including no argument) exits. -/
def parseArgumentsModel (raceList : Ident → Ident → List Ident)
    (args : List Ident) : Except Nat (List Ident) :=
  match args with
  | [] => .error 1
  | arg :: _ =>
    if arg.length = 10 then
      match expandRaceId arg with
      | .ok l => .ok l
      | .error _ => .error 1
    else if arg.length = 6 then
      let l := raceList (arg.take 4) (arg.drop (arg.length - 2))
      if l.isEmpty then .error 1 else .ok l
    else if arg.length = 12 then .ok [arg]
    else .error 1

end Keiba

namespace Pool

/-- A result-table row; the fetch pool reads `row["horse_id"]` from it, the
rest of the record is opaque payload. -/
structure RRow where
  horse_id : String
  payload : String
deriving DecidableEq, Repr

/-- The external `keibascraper.load` capability, split by domain exactly as
`src/keiba_scraper/run.py` calls it: `load("result", race_id)` returns the
race rows and the result rows, `load("odds", race_id)` the odds rows,
`load("horse", horse_id)` the horse rows and the history rows.  `.error`
models a raised exception. -/
structure KOracle where
  loadResult : String → Except String (List String × List RRow)
  loadOdds : String → Except String (List String)
  loadHorse : String → Except String (List String × List String)

/-- The five lists accumulated by `fetch_chunk_data`. -/
structure DataMap where
  race : List String
  result : List RRow
  horse : List String
  history : List String
  odds : List String
deriving DecidableEq, Repr

def DataMap.empty : DataMap := ⟨[], [], [], [], []⟩

def DataMap.append (a b : DataMap) : DataMap :=
  ⟨a.race ++ b.race, a.result ++ b.result, a.horse ++ b.horse,
   a.history ++ b.history, a.odds ++ b.odds⟩

/-- One `logger.error` line emitted by `load_all_data_for_race_id`. -/
inductive KLog where
  | resultErr : String → KLog
  | oddsErr : String → KLog
  | horseErr : String → String → KLog
deriving DecidableEq, Repr

/-- `load_all_data_for_race_id` of `src/keiba_scraper/run.py`: on a result
fetch error the task returns five empty lists after logging once; an odds
error is downgraded to `odds = []` with one log line; each horse error skips
that horse with one log line.  The log stream is returned explicitly. -/
def loadAllData (o : KOracle) (rid : String) : DataMap × List KLog :=
  match o.loadResult rid with
  | .error _ => (DataMap.empty, [KLog.resultErr rid])
  | .ok (race, result) =>
      let oddsPair : List String × List KLog :=
        match o.loadOdds rid with
        | .ok od => (od, [])
        | .error _ => ([], [KLog.oddsErr rid])
      let horsePair : List String × List String × List KLog :=
        result.foldl (fun acc row =>
          match o.loadHorse row.horse_id with
          | .ok (h, hi) => (acc.1 ++ h, acc.2.1 ++ hi, acc.2.2)
          | .error _ => (acc.1, acc.2.1, acc.2.2 ++ [KLog.horseErr rid row.horse_id]))
          ([], [], [])
      (⟨race, result, horsePair.1, horsePair.2.1, oddsPair.1⟩,
       oddsPair.2 ++ horsePair.2.2)

/-- The body of the `as_completed` loop of `fetch_chunk_data`: one completed
task's five lists are extended onto the shared `data_map`, its log lines onto
the shared log. -/
def poolStep (o : KOracle) (acc : DataMap × List KLog) (rid : String) :
    DataMap × List KLog :=
  let r := loadAllData o rid
  (acc.1.append r.1, acc.2 ++ r.2)

/-- `fetch_chunk_data` of `src/keiba_scraper/run.py`.  The thread pool
completes tasks in a nondeterministic order, so the aggregation is modelled
over an explicit completion order `order` (a permutation of the submitted
ids). -/
def fetchChunkData (o : KOracle) (order : List String) : DataMap × List KLog :=
  order.foldl (poolStep o) (DataMap.empty, [])

/-- A task whose every external call succeeds. -/
def allOk (o : KOracle) (rid : String) : Bool :=
  match o.loadResult rid with
  | .error _ => false
  | .ok (_, result) =>
      (match o.loadOdds rid with | .ok _ => true | .error _ => false) &&
      result.all fun row =>
        match o.loadHorse row.horse_id with | .ok _ => true | .error _ => false

end Pool

namespace Xref

/-- A Python scalar value stored in a record field. -/
inductive Val where
  | vStr : String → Val
  | vInt : Int → Val
  | vNull : Val
deriving DecidableEq, Repr

/-- Python truthiness of the values above (`if not entry_id`). -/
def truthy : Val → Bool
  | .vStr s => !(s = "")
  | .vInt n => !(n = 0)
  | .vNull => false

/-- A record (`dict`) as an association list of named fields. -/
abbrev Entry := List (String × Val)

/-- `d.get(k)`: `none` when the key is absent. -/
def dget (e : Entry) (k : String) : Option Val :=
  (e.find? fun p => p.1 = k).map (·.2)

/-- Python `{**a, **b}`: `a`'s keys in order with `b`'s value on collision,
then `b`'s remaining keys in order. -/
def dunion (a b : Entry) : Entry :=
  (a.map fun p => (p.1, (dget b p.1).getD p.2)) ++
    b.filter fun p => (dget a p.1).isNone

/-- The lookup built by `{item['id']: item for item in odds if 'id' in item}`:
for a given id value, the last matching odds record wins. -/
def lookupOdds (odds : List Entry) (v : Val) : Option Entry :=
  (odds.filter fun it => dget it "id" = some v).getLast?

/-- The race record: `others` are its scalar fields, `entry` is the value of
the `"entry"` key (`none` models the key being absent). -/
structure RRace where
  others : List (String × Val)
  entry : Option (List Entry)
deriving DecidableEq, Repr

/-- The body of the `for entry in race.get('entry', [])` loop, with the
accumulated `merged_entries` list: a missing or falsy `id` skips the entry;
a lookup match appends the shallow union (odds values overriding); otherwise
the entry is appended as is. -/
def mergeStep (odds : List Entry) (acc : List Entry) (e : Entry) : List Entry :=
  let eid := (dget e "id").getD .vNull
  if truthy eid then
    match lookupOdds odds eid with
    | some o => acc ++ [dunion e o]
    | none => acc ++ [e]
  else acc

/-- `merge_race_and_odds` of `src/scripts/keiba_scraper.py` (identical in
`src/batch_scripts/keibascraper.py`).  A missing `'entry'` key raises
`ValueError`; otherwise the function sets `race["entry"] = merged_entries`
and returns `race`.  Note the assignment mutates the caller's record: the
returned record IS the caller's primary record after the call. -/
def mergeRaceAndOdds (race : RRace) (odds : List Entry) : Except String RRace :=
  match race.entry with
  | none => .error "The race data does not contain entry key."
  | some entries =>
      .ok ⟨race.others, some (entries.foldl (mergeStep odds) [])⟩

/-- The caller's primary record after the call: `merge_race_and_odds` mutates
`race` in place (`race["entry"] = merged_entries`) and returns that same
object, so on success the caller observes the returned record; the
`ValueError` is raised before any mutation, so on error the record is
untouched. -/
def primaryAfterMerge (race : RRace) (odds : List Entry) : RRace :=
  match mergeRaceAndOdds race odds with
  | .ok r => r
  | .error _ => race

/-- Modelled from the spec's words (claim C7): each entry whose join-field
value has a lookup match becomes the shallow union with the matched record,
and every other entry passes through unchanged — no entry is dropped. -/
def specMergeAllEntries (race : RRace) (odds : List Entry) : Except String RRace :=
  match race.entry with
  | none => .error "The race data does not contain entry key."
  | some entries =>
      .ok ⟨race.others, some (entries.map fun e =>
        match dget e "id" with
        | some v => (lookupOdds odds v).elim e (dunion e)
        | none => e)⟩

end Xref

namespace Enrich

/-- One SudachiPy morpheme, reduced to the four accessors
`enrich_corporate_names` reads: the part-of-speech tuple, `surface()`,
`normalized_form()` and `reading_form()`. -/
structure Morpheme where
  pos : List String
  surface : String
  normalizedForm : String
  readingForm : String
deriving DecidableEq, Repr

/-- `is_legal_form_token`: the part-of-speech tuple has at least four parts
and starts `名詞, 普通名詞, 法人, 法人種別`. -/
def isLegalFormToken (m : Morpheme) : Bool :=
  match m.pos with
  | a :: b :: c :: d :: _ =>
      a = "名詞" && b = "普通名詞" && c = "法人" && d = "法人種別"
  | _ => false

/-- Python's `"".join`. -/
def strJoin (l : List String) : String :=
  l.foldl (· ++ ·) ""

/-- `enrich_corporate_names` of `src/corpreg_enrich/run.py`.  The tokenizer is
the external SudachiPy capability.  The input is `none` for a non-string
value (the `isinstance` guard) and `some s` for a string.  The returned
Python tuple is modelled as a list of strings so that the two return shapes
of the source — `("", "")` on the guard path and `(legal_form, brand_name,
furigana)` on the normal path — can be told apart. -/
def enrichCorporateNames (tokenize : String → List Morpheme)
    (corporateName : Option String) : List String :=
  match corporateName with
  | none => ["", ""]
  | some s =>
      if s = "" then ["", ""]
      else
        let morphemes := tokenize s
        let legalTokens := morphemes.filter isLegalFormToken
        let legalForm :=
          match legalTokens.head? with
          | some m => m.normalizedForm
          | none => ""
        let brandName :=
          strJoin ((morphemes.filter fun m => !isLegalFormToken m).map (·.surface))
        let furigana :=
          strJoin ((morphemes.filter fun m => !isLegalFormToken m).map (·.readingForm))
        [legalForm, brandName, furigana]

end Enrich

deriving instance DecidableEq for Except

/-! ### Claim C5 — expansion of a 10-length identifier -/

/-- C5: for every identifier of length 10, both expansion variants
(`expand_race_ids` of `src/keiba_scraper/run.py` and `expand_race_id` of
`src/scripts/keiba_scraper.py`) return the same list of exactly 12
identifiers, each of length 12, the `i`-th being the input concatenated with
the zero-padded decimal suffix of value `i + 1` (so the suffixes run `01`
through `12` in ascending numeric order). -/
theorem c5_expand_len10 (raceList : Keiba.Ident → Keiba.Ident → List Keiba.Ident)
    (s : Keiba.Ident) (h : s.length = 10) :
    ∃ l, Keiba.expandRaceIds raceList s = .ok l ∧
      Keiba.expandRaceId s = .ok l ∧
      l.length = 12 ∧
      (∀ r ∈ l, r.length = 12) ∧
      (∀ i, i < 12 → ∃ sfx, l[i]? = some (s ++ sfx) ∧ sfx.length = 2 ∧
        Keiba.digitsVal sfx = i + 1) := by
  refine ⟨(List.range' 1 12).map (fun i => s ++ Keiba.zfill 2 (Nat.toDigits 10 i)),
    ?_, ?_, ?_, ?_, ?_⟩
  · simp [Keiba.expandRaceIds, h]
  · simp [Keiba.expandRaceId, h]
  · simp
  · intro r hr
    rcases List.mem_map.mp hr with ⟨i, hi, rfl⟩
    have hrange : List.range' 1 12 = [1, 2, 3, 4, 5, 6, 7, 8, 9, 10, 11, 12] := rfl
    rw [hrange] at hi
    fin_cases hi <;> (rw [List.length_append, h]; decide)
  · intro i hi
    refine ⟨Keiba.zfill 2 (Nat.toDigits 10 (i + 1)), ?_, ?_, ?_⟩
    · interval_cases i <;> rfl
    · interval_cases i <;> decide
    · interval_cases i <;> decide

/-- Concrete 10-length identifier for the C5 witness. -/
def c5S : Keiba.Ident := ['2', '0', '2', '5', '0', '8', '0', '1', '0', '1']

/-- C5 witness: the expansion theorem applied to the concrete identifier
`2025080101`. -/
theorem c5_expand_len10_witness :
    ∃ l, Keiba.expandRaceIds (fun _ _ => []) c5S = .ok l ∧
      Keiba.expandRaceId c5S = .ok l ∧
      l.length = 12 ∧
      (∀ r ∈ l, r.length = 12) ∧
      (∀ i, i < 12 → ∃ sfx, l[i]? = some (c5S ++ sfx) ∧ sfx.length = 2 ∧
        Keiba.digitsVal sfx = i + 1) :=
  c5_expand_len10 (fun _ _ => []) c5S (by decide)

/-! ### Claim C6 — expansion of a 6-length identifier and the empty listing -/

/-- Concrete 6-length identifier (`202508`) for the C6 theorems. -/
def c6Six : Keiba.Ident := ['2', '0', '2', '5', '0', '8']

/-- C6 counterexample: with a period-listing capability that returns the
empty sequence, `expand_race_ids` of `src/keiba_scraper/run.py` returns the
empty sequence as a success — it does not fail. -/
theorem c6_empty_listing_is_success :
    Keiba.expandRaceIds (fun _ _ => []) c6Six = .ok [] ∧
    (Keiba.expandRaceIds (fun _ _ => []) c6Six).isOk = true :=
  ⟨rfl, rfl⟩

/-- C6 amended: for a 6-length identifier, `expand_race_ids` delegates to the
period-listing capability and returns its result unchanged — including the
empty sequence, as a success.  The empty-listing failure lives one layer up,
in `parse_arguments` of `src/scripts/keiba_scraper.py`, which exits with
status 1 when the listing is empty. -/
theorem c6_expand_delegates_empty_check_in_cli :
    (∀ (raceList : Keiba.Ident → Keiba.Ident → List Keiba.Ident) (s : Keiba.Ident),
      s.length = 6 →
      Keiba.expandRaceIds raceList s = .ok (raceList (s.take 4) (s.drop 4))) ∧
    (∀ (raceList : Keiba.Ident → Keiba.Ident → List Keiba.Ident)
      (arg : Keiba.Ident) (rest : List Keiba.Ident),
      arg.length = 6 → raceList (arg.take 4) (arg.drop (arg.length - 2)) = [] →
      Keiba.parseArgumentsModel raceList (arg :: rest) = .error 1) := by
  constructor
  · intro raceList s h
    simp [Keiba.expandRaceIds, h]
  · intro raceList arg rest h hempty
    rw [h] at hempty
    simp [Keiba.parseArgumentsModel, h, hempty]

/-- C6 witness: the amended theorem applied to `202508` with an
empty-returning listing capability — the expansion succeeds with `[]` and the
CLI wrapper exits with status 1. -/
theorem c6_expand_delegates_witness :
    Keiba.expandRaceIds (fun _ _ => []) c6Six = .ok [] ∧
    Keiba.parseArgumentsModel (fun _ _ => []) [c6Six] = .error 1 :=
  ⟨c6_expand_delegates_empty_check_in_cli.1 (fun _ _ => []) c6Six (by decide),
   c6_expand_delegates_empty_check_in_cli.2 (fun _ _ => []) c6Six [] (by decide) (by decide)⟩

/-! ### Claim C1 — latest-flag invariant of the incremental merge -/

/-- New snapshot for the C1 counterexample: key `K` at version `2`, flagged
latest by the source. -/
def c1New : List Corpreg.NRow := [⟨"K", some "2", "x", "1"⟩]

/-- Base dataset for the C1 counterexample: key `K` at version `1`, still
flagged latest from the previous run. -/
def c1Base : List Corpreg.BRow := [⟨"K", some "1", "y", "1", none, none, none, 0⟩]

/-- C1 counterexample: merging a new version of key `K` into a base that
already holds an older latest-flagged row for `K` leaves two rows with
`latest = '1'` for the same key, so the claimed invariant — exactly one
latest row per key, at the maximal version — fails on the merged result. -/
theorem c1_latest_invariant_fails : ¬ Corpreg.latestInvariant (Corpreg.merge c1New (some c1Base)) := by
  decide

/-- C1 amended: the merge never recomputes the `latest` field.  A row of the
merged dataset is either a base row, unchanged, or a new row that matched no
base row on `(corporate_number, update_date)`, carried over with its input
`latest` flag and nulled enrichment columns; in the cold-start case every row
is a carried-over new row.  `addEnrich` preserves the key, version and latest
fields, so the latest flags are pass-through, and nothing guarantees a unique
latest row per key. -/
theorem c1_merge_latest_passthrough :
    (∀ (newRows : List Corpreg.NRow) (baseRows : List Corpreg.BRow) (r : Corpreg.BRow),
      r ∈ Corpreg.merge newRows (some baseRows) ↔
        r ∈ baseRows ∨
          ∃ n, n ∈ newRows ∧ Corpreg.matchesBase baseRows n = false ∧ r = Corpreg.addEnrich n) ∧
    (∀ (newRows : List Corpreg.NRow) (r : Corpreg.BRow),
      r ∈ Corpreg.merge newRows none ↔ ∃ n, n ∈ newRows ∧ r = Corpreg.addEnrich n) ∧
    (∀ n : Corpreg.NRow,
      (Corpreg.addEnrich n).latest = n.latest ∧
      (Corpreg.addEnrich n).corporate_number = n.corporate_number ∧
      (Corpreg.addEnrich n).update_date = n.update_date) := by
  refine ⟨?_, ?_, ?_⟩
  · intro newRows baseRows r
    simp only [Corpreg.merge, List.mem_append, List.mem_map, List.mem_filter,
      Bool.not_eq_true']
    constructor
    · rintro (h | ⟨n, ⟨hn, hm⟩, he⟩)
      · exact Or.inl h
      · exact Or.inr ⟨n, hn, hm, he.symm⟩
    · rintro (h | ⟨n, hn, hm, he⟩)
      · exact Or.inl h
      · exact Or.inr ⟨n, ⟨hn, hm⟩, he.symm⟩
  · intro newRows r
    simp only [Corpreg.merge, List.mem_map]
    constructor
    · rintro ⟨n, hn, he⟩
      exact ⟨n, hn, he.symm⟩
    · rintro ⟨n, hn, he⟩
      exact ⟨n, hn, he.symm⟩
  · intro n
    exact ⟨rfl, rfl, rfl⟩

/-! ### Claim C2 — concatenation order and duplicate ties of the merge -/

/-- New snapshot for the C2 counterexample: key `K`, version `1`, fresh
payload. -/
def c2New : List Corpreg.NRow := [⟨"K", some "1", "new", "1"⟩]

/-- Base dataset for the C2 counterexample: the same `(key, version)` pair
with the old payload. -/
def c2Base : List Corpreg.BRow := [⟨"K", some "1", "old", "1", none, none, none, 0⟩]

/-- C2 counterexample: on a `(corporate_number, update_date)` duplicate the
code keeps the base row and drops the new row, so the result differs from
the claimed new-rows-first, first-occurrence-kept merge, which would keep the
new row. -/
theorem c2_new_first_dedup_fails :
    Corpreg.merge c2New (some c2Base) ≠ Corpreg.specMergeNewFirst c2New c2Base := by
  decide

/-- C2 amended: the merge concatenates the base rows before the new rows: the
result starts with the base rows unchanged and in order, followed by exactly
those new rows that match no base row on `(corporate_number, update_date)`,
with the enrichment columns added.  A new row that duplicates a base row on
the key and version fields is dropped, so the base row wins the tie. -/
theorem c2_merge_base_first :
    ∀ (newRows : List Corpreg.NRow) (baseRows : List Corpreg.BRow),
      (Corpreg.merge newRows (some baseRows)).take baseRows.length = baseRows ∧
      (Corpreg.merge newRows (some baseRows)).drop baseRows.length =
        (newRows.filter fun n => !(Corpreg.matchesBase baseRows n)).map Corpreg.addEnrich := by
  intro newRows baseRows
  unfold Corpreg.merge
  exact ⟨List.take_left _ _, List.drop_left _ _⟩

/-! ### Claim C8 — idempotence of the incremental merge -/

/-- C8 counterexample input: one row with a NULL `update_date` (and an
already-enriched `legal_form`). -/
def c8A : List Corpreg.BRow := [⟨"K", none, "x", "1", some "KK", none, none, 0⟩]

/-- C8 counterexample: merging `c8A` with itself as both new and base does
not return `c8A`'s row set.  The anti-join condition
`n.update_date = b.update_date` is SQL equality, which is never true on NULL,
so the NULL-version row is re-appended (with its enrichment columns reset),
producing a row that was not in the input. -/
theorem c8_self_merge_not_idempotent :
    ¬ ∀ r ∈ Corpreg.merge (c8A.map Corpreg.projN) (some c8A), r ∈ c8A := by
  decide

/-- C8 amended: idempotence holds away from NULL versions — if every row of
`A` has a non-NULL `update_date`, merging `A` with itself as both new and
base returns exactly `A`; and merging an empty new snapshot into any base
returns the base unchanged. -/
theorem c8_merge_idempotent_nonnull :
    (∀ A : List Corpreg.BRow, (∀ r ∈ A, r.update_date ≠ none) →
      Corpreg.merge (A.map Corpreg.projN) (some A) = A) ∧
    (∀ B : List Corpreg.BRow, Corpreg.merge [] (some B) = B) := by
  constructor
  · intro A h
    have hfilter : (A.map Corpreg.projN).filter (fun n => !(Corpreg.matchesBase A n)) = [] := by
      rw [List.filter_eq_nil_iff]
      intro n hn
      rw [List.mem_map] at hn
      obtain ⟨r, hr, rfl⟩ := hn
      have hm : Corpreg.matchesBase A (Corpreg.projN r) = true := by
        unfold Corpreg.matchesBase
        rw [List.any_eq_true]
        refine ⟨r, hr, ?_⟩
        obtain ⟨u, hu⟩ := Option.ne_none_iff_exists'.mp (h r hr)
        simp [Corpreg.projN, Corpreg.sqlEq, hu]
      simp [hm]
    simp only [Corpreg.merge, hfilter, List.map_nil, List.append_nil]
  · intro B
    simp [Corpreg.merge]

/-- Concrete two-row dataset with non-NULL versions, for the C8 witness. -/
def c8W : List Corpreg.BRow :=
  [⟨"K", some "1", "x", "1", some "KK", none, none, 0⟩,
   ⟨"L", some "2", "y", "1", none, none, none, 0⟩]

/-- C8 witness: the amended idempotence theorem applied to the concrete
dataset `c8W`. -/
theorem c8_merge_idempotent_witness :
    Corpreg.merge (c8W.map Corpreg.projN) (some c8W) = c8W :=
  c8_merge_idempotent_nonnull.1 c8W (by decide)

/-! ### Claim C3 — atomicity of the store write paths -/

/-- Running operations that never mention the canonical path leaves the
canonical path's content unchanged. -/
theorem store_canon_untouched (ops : List Store.FOp) :
    ∀ fs : Store.FS, (∀ op ∈ ops, Store.touchesCanon op = false) →
      (Store.runFS fs ops).canon = fs.canon := by
  induction ops with
  | nil => intro fs _; rfl
  | cons op rest ih =>
    intro fs h
    have hop := h op (List.mem_cons_self op rest)
    have hrest : ∀ o ∈ rest, Store.touchesCanon o = false :=
      fun o ho => h o (List.mem_cons_of_mem op ho)
    show (Store.runFS (Store.stepFS fs op) rest).canon = fs.canon
    rw [ih (Store.stepFS fs op) hrest]
    cases op with
    | openTrunc p =>
      cases p with
      | canon => simp [Store.touchesCanon] at hop
      | tmp => rfl
    | append p b =>
      cases p with
      | canon => simp [Store.touchesCanon] at hop
      | tmp =>
        cases htmp : fs.tmp <;>
          simp [Store.stepFS, Store.FS.get, Store.FS.set, htmp]
    | rename src dst =>
      cases src with
      | canon => simp [Store.touchesCanon] at hop
      | tmp =>
        cases dst with
        | canon => simp [Store.touchesCanon] at hop
        | tmp => rfl

/-- Appending chunks onto an existing temporary file accumulates its
content. -/
theorem store_appends_tmp (data : List Nat) :
    ∀ (fs : Store.FS) (l : List Nat), fs.tmp = some l →
      (Store.runFS fs (data.map (Store.FOp.append .tmp))).tmp = some (l ++ data) := by
  induction data with
  | nil => intro fs l h; simpa [Store.runFS] using h
  | cons b rest ih =>
    intro fs l h
    show (Store.runFS (Store.stepFS fs (.append .tmp b)) (rest.map (Store.FOp.append .tmp))).tmp =
      some (l ++ b :: rest)
    have hstep : (Store.stepFS fs (.append .tmp b)).tmp = some (l ++ [b]) := by
      simp [Store.stepFS, Store.FS.get, Store.FS.set, h]
    rw [ih _ _ hstep]
    simp

/-- C3 counterexample: `save_data` of `src/sagikoza_fetch/run.py` opens the
canonical path directly; failing after writing one of the two chunks leaves
partial content visible at the canonical path, different from its pre-write
state `[9]`. -/
theorem c3_sagikoza_partial_visible :
    2 < (Store.sagikozaSave [1, 2]).length ∧
    (Store.runFS ⟨some [9], none⟩ ((Store.sagikozaSave [1, 2]).take 2)).canon ≠
      (some [9] : Option (List Nat)) := by
  decide

/-- C3 amended: the corpreg merge write path is atomic — every strict prefix
of its operation sequence (a failure at any point before the final
`os.replace` completes) leaves the canonical path's content exactly as it
was, and the completed sequence replaces it with the new dataset; the
sagikoza_fetch `save_data` write path, by contrast, writes the canonical path
directly (see the counterexample). -/
theorem c3_corpreg_save_atomic :
    (∀ (fs : Store.FS) (data : List Nat) (k : Nat), k < (Store.corpregSave data).length →
      (Store.runFS fs ((Store.corpregSave data).take k)).canon = fs.canon) ∧
    (∀ (fs : Store.FS) (data : List Nat),
      (Store.runFS fs (Store.corpregSave data)).canon = some data) := by
  constructor
  · intro fs data k hk
    have hsplit : Store.corpregSave data =
        (Store.FOp.openTrunc .tmp :: data.map (Store.FOp.append .tmp)) ++
          [Store.FOp.rename .tmp .canon] := by
      simp [Store.corpregSave]
    have hlen : k ≤ (Store.FOp.openTrunc .tmp :: data.map (Store.FOp.append .tmp)).length := by
      have : (Store.corpregSave data).length = data.length + 2 := by
        simp [Store.corpregSave]
      simp only [List.length_cons, List.length_map]
      omega
    rw [hsplit, List.take_append_of_le_length hlen]
    apply store_canon_untouched
    intro op hop
    have hop' := List.take_subset k _ hop
    rcases List.mem_cons.mp hop' with h | h
    · subst h; rfl
    · rcases List.mem_map.mp h with ⟨b, _, rfl⟩
      rfl
  · intro fs data
    have hsplit : Store.corpregSave data =
        (Store.FOp.openTrunc .tmp :: data.map (Store.FOp.append .tmp)) ++
          [Store.FOp.rename .tmp .canon] := by
      simp [Store.corpregSave]
    rw [hsplit]
    show (List.foldl Store.stepFS fs _).canon = some data
    rw [List.foldl_append]
    have htmp : (List.foldl Store.stepFS fs
        (Store.FOp.openTrunc .tmp :: data.map (Store.FOp.append .tmp))).tmp = some data := by
      rw [List.foldl_cons]
      have hbase : (Store.stepFS fs (.openTrunc .tmp)).tmp = some [] := rfl
      simpa [Store.runFS] using store_appends_tmp data (Store.stepFS fs (.openTrunc .tmp)) [] hbase
    generalize hx : List.foldl Store.stepFS fs
      (Store.FOp.openTrunc .tmp :: data.map (Store.FOp.append .tmp)) = x at htmp ⊢
    simp [Store.stepFS, Store.FS.get, Store.FS.set, htmp]

/-- C3 witness: atomicity of the corpreg write path at a concrete input — a
failure after the first operation leaves the canonical content `[9]` intact,
and the completed write replaces it with `[5]`. -/
theorem c3_corpreg_save_atomic_witness :
    (Store.runFS ⟨some [9], none⟩ ((Store.corpregSave [5]).take 1)).canon = some [9] ∧
    (Store.runFS ⟨some [9], none⟩ (Store.corpregSave [5])).canon = some [5] :=
  ⟨c3_corpreg_save_atomic.1 ⟨some [9], none⟩ [5] 1 (by decide),
   c3_corpreg_save_atomic.2 ⟨some [9], none⟩ [5]⟩

/-! ### Claim C7 — behaviour of the cross-reference merge on each entry -/

/-- Race record whose single entry lacks the `id` field, for the C7
counterexample. -/
def c7NoId : Xref.RRace := ⟨[], some [[("a", Xref.Val.vStr "x")]]⟩

/-- C7 counterexample: an entry without an `id` value is unmatched, and the
claim says every unmatched entry passes through unchanged; the code instead
drops it (`continue` under `if not entry_id`), so the result differs from the
claim's nothing-dropped merge at this input. -/
theorem c7_unmatched_entry_dropped :
    Xref.mergeRaceAndOdds c7NoId [] ≠ Xref.specMergeAllEntries c7NoId [] := by
  decide

/-- The per-entry step of the merged-entries loop, as a `filterMap`
function. -/
def xrefStep (odds : List Xref.Entry) (e : Xref.Entry) : Option Xref.Entry :=
  let eid := (Xref.dget e "id").getD .vNull
  if Xref.truthy eid then
    some ((Xref.lookupOdds odds eid).elim e (Xref.dunion e))
  else none

/-- The `merged_entries` loop is the `filterMap` of `xrefStep`. -/
theorem xref_fold_eq_filterMap (odds : List Xref.Entry) :
    ∀ (l acc : List Xref.Entry),
      l.foldl (Xref.mergeStep odds) acc = acc ++ l.filterMap (xrefStep odds) := by
  intro l
  induction l with
  | nil => intro acc; simp
  | cons e rest ih =>
    intro acc
    rw [List.foldl_cons, List.filterMap_cons]
    by_cases htr : Xref.truthy ((Xref.dget e "id").getD .vNull) = true
    · cases hl : Xref.lookupOdds odds ((Xref.dget e "id").getD .vNull) with
      | none => simp [Xref.mergeStep, xrefStep, htr, hl, ih]
      | some o => simp [Xref.mergeStep, xrefStep, htr, hl, ih]
    · rw [Bool.not_eq_true] at htr
      simp [Xref.mergeStep, xrefStep, htr, ih]

/-- C7 amended: for each entry of the primary's entry list, an entry whose
`id` value is present and truthy is merged — the shallow union with the last
matching secondary record when a lookup match exists, secondary values
overriding, and passed through unchanged when no match exists — while an
entry whose `id` value is missing or falsy is dropped from the merged output.
All other fields of the primary are kept. -/
theorem c7_cross_merge_entrywise (race : Xref.RRace) (odds : List Xref.Entry)
    (entries : List Xref.Entry) (h : race.entry = some entries) :
    Xref.mergeRaceAndOdds race odds =
      .ok ⟨race.others, some (entries.filterMap (xrefStep odds))⟩ := by
  unfold Xref.mergeRaceAndOdds
  rw [h]
  show Except.ok (⟨race.others, some (entries.foldl (Xref.mergeStep odds) [])⟩ : Xref.RRace) =
    Except.ok (⟨race.others, some (entries.filterMap (xrefStep odds))⟩ : Xref.RRace)
  rw [xref_fold_eq_filterMap]
  simp

/-- The claim's own concrete primary record: entries
`[{id: 1, a: "x"}, {id: 2, a: "y"}]`. -/
def c7Ex : Xref.RRace :=
  ⟨[], some [[("id", Xref.Val.vInt 1), ("a", Xref.Val.vStr "x")],
             [("id", Xref.Val.vInt 2), ("a", Xref.Val.vStr "y")]]⟩

/-- The claim's own concrete secondary records: `[{id: 1, b: "z"}]`. -/
def c7Odds : List Xref.Entry := [[("id", Xref.Val.vInt 1), ("b", Xref.Val.vStr "z")]]

/-- C7 witness: the entrywise theorem applied to the claim's concrete
example yields `[{id: 1, a: "x", b: "z"}, {id: 2, a: "y"}]`. -/
theorem c7_cross_merge_witness :
    Xref.mergeRaceAndOdds c7Ex c7Odds =
      .ok ⟨[], some [[("id", Xref.Val.vInt 1), ("a", Xref.Val.vStr "x"), ("b", Xref.Val.vStr "z")],
                     [("id", Xref.Val.vInt 2), ("a", Xref.Val.vStr "y")]]⟩ :=
  (c7_cross_merge_entrywise c7Ex c7Odds _ rfl).trans (by decide)

/-! ### Claim C9 — the cross-reference merge mutates its primary input -/

/-- C9 counterexample: after a successful `merge_race_and_odds` call the
caller's primary record is the returned record (the function reassigns
`race["entry"]` in place and returns `race`), and at the claim's own example
input that record differs from the pre-call primary. -/
theorem c9_primary_record_mutated :
    Xref.primaryAfterMerge c7Ex c7Odds ≠ c7Ex := by
  decide

/-- C9 amended: `merge_race_and_odds` updates the primary record in place —
after the call the caller's record has the merged entry list, every field
other than `entry` unchanged; on the missing-entry-list error path the
record is untouched.  The secondary records are never modified (the model
takes them by value and only reads them). -/
theorem c9_only_entry_field_updated :
    (∀ (race : Xref.RRace) (odds : List Xref.Entry),
      (Xref.primaryAfterMerge race odds).others = race.others) ∧
    (∀ (race : Xref.RRace) (odds : List Xref.Entry),
      race.entry = none → Xref.primaryAfterMerge race odds = race) := by
  constructor
  · intro race odds
    cases race with
    | mk others entry =>
      cases entry <;> rfl
  · intro race odds h
    cases race with
    | mk others entry =>
      cases entry with
      | none => rfl
      | some entries => simp at h

/-- C9 witness: the frame theorem at the claim's concrete example, and the
untouched error path at a record without an entry list. -/
theorem c9_only_entry_field_witness :
    (Xref.primaryAfterMerge c7Ex c7Odds).others = c7Ex.others ∧
    Xref.primaryAfterMerge ⟨[("x", Xref.Val.vInt 1)], none⟩ [] =
      ⟨[("x", Xref.Val.vInt 1)], none⟩ :=
  ⟨c9_only_entry_field_updated.1 c7Ex c7Odds,
   c9_only_entry_field_updated.2 ⟨[("x", Xref.Val.vInt 1)], none⟩ [] rfl⟩

/-! ### Claim C10 — return arity of `enrich_corporate_names` -/

/-- C10: evaluation of `enrich_corporate_names` at the failing inputs.  For
the empty string and for a non-string value the function returns the
two-component tuple `("", "")`, while the normal path returns three
components — so the declared return type `tupleᵃ[str, str, str]` and the
three-way `zip(*results)` unpack in `enrich_dataframe` are violated exactly
on empty or non-string names. -/
theorem c10_empty_name_two_components :
    Enrich.enrichCorporateNames (fun _ => []) (some "") = ["", ""] ∧
    Enrich.enrichCorporateNames (fun _ => []) none = ["", ""] ∧
    (Enrich.enrichCorporateNames (fun _ => []) (some "")).length = 2 ∧
    (Enrich.enrichCorporateNames (fun _ => []) (some "a")).length = 3 :=
  ⟨rfl, rfl, rfl, rfl⟩

/-! ### Claim C4 — fault isolation of the fetch worker pool -/

/-- `DataMap.append` is associative. -/
theorem pool_append_assoc (a b c : Pool.DataMap) :
    (a.append b).append c = a.append (b.append c) := by
  cases a
  cases b
  cases c
  simp [Pool.DataMap.append, List.append_assoc]

/-- Appending the empty map on the right changes nothing. -/
theorem pool_append_empty (a : Pool.DataMap) : a.append Pool.DataMap.empty = a := by
  cases a
  simp [Pool.DataMap.append, Pool.DataMap.empty]

/-- Appending the empty map on the left changes nothing. -/
theorem pool_empty_append (a : Pool.DataMap) : Pool.DataMap.empty.append a = a := by
  cases a
  simp [Pool.DataMap.append, Pool.DataMap.empty]

/-- The per-id contribution to the data map. -/
def poolData (o : Pool.KOracle) (rid : String) : Pool.DataMap :=
  (Pool.loadAllData o rid).1

/-- The per-id contribution to the error log. -/
def poolLog (o : Pool.KOracle) (rid : String) : List Pool.KLog :=
  (Pool.loadAllData o rid).2

/-- The flattened form of the per-order data map. -/
def poolFlat (o : Pool.KOracle) (order : List String) : Pool.DataMap :=
  ⟨order.flatMap fun rid => (poolData o rid).race,
   order.flatMap fun rid => (poolData o rid).result,
   order.flatMap fun rid => (poolData o rid).horse,
   order.flatMap fun rid => (poolData o rid).history,
   order.flatMap fun rid => (poolData o rid).odds⟩

/-- The aggregation loop of `fetch_chunk_data`, with a general accumulator:
it appends the flattened per-id contributions. -/
theorem pool_fold_acc (o : Pool.KOracle) :
    ∀ (order : List String) (acc : Pool.DataMap × List Pool.KLog),
      order.foldl (Pool.poolStep o) acc =
        (acc.1.append (poolFlat o order),
         acc.2 ++ order.flatMap fun rid => poolLog o rid) := by
  intro order
  induction order with
  | nil =>
    intro acc
    have hempty : poolFlat o [] = Pool.DataMap.empty := rfl
    simp only [List.foldl_nil, List.flatMap_nil, List.append_nil, hempty,
      pool_append_empty]
  | cons rid rest ih =>
    intro acc
    rw [List.foldl_cons, ih]
    have hflat : poolFlat o (rid :: rest) = (poolData o rid).append (poolFlat o rest) := by
      simp [poolFlat, Pool.DataMap.append]
    rw [hflat]
    simp [Pool.poolStep, poolData, poolLog, pool_append_assoc, List.append_assoc]

/-- `fetch_chunk_data` flattens the per-id contributions in completion
order. -/
theorem pool_fetch_flat (o : Pool.KOracle) (order : List String) :
    Pool.fetchChunkData o order =
      (poolFlat o order, order.flatMap fun rid => poolLog o rid) := by
  unfold Pool.fetchChunkData
  rw [pool_fold_acc o order]
  simp [pool_empty_append]

/-- Dropping elements that contribute nothing from a `flatMap`. -/
theorem flatMap_filter_contrib {α β : Type} (f : α → List β) (p : α → Bool) :
    ∀ l : List α, (∀ x ∈ l, p x = false → f x = []) →
      l.flatMap f = (l.filter p).flatMap f := by
  intro l
  induction l with
  | nil => intro _; simp
  | cons x rest ih =>
    intro h
    rw [List.flatMap_cons, List.filter_cons]
    by_cases hp : p x = true
    · rw [if_pos hp, List.flatMap_cons,
        ih fun y hy hf => h y (List.mem_cons_of_mem x hy) hf]
    · rw [Bool.not_eq_true] at hp
      rw [h x (List.mem_cons_self x rest) hp]
      simp only [List.nil_append]
      rw [if_neg (by simp [hp]), ih fun y hy hf => h y (List.mem_cons_of_mem x hy) hf]

/-- The third component of the horse-loading loop is the accumulated horse
error log. -/
theorem pool_horse_fold_log (o : Pool.KOracle) (rid : String) :
    ∀ (result : List Pool.RRow) (acc : List String × List String × List Pool.KLog),
      (result.foldl (fun acc row =>
        match o.loadHorse row.horse_id with
        | .ok (h, hi) => (acc.1 ++ h, acc.2.1 ++ hi, acc.2.2)
        | .error _ => (acc.1, acc.2.1, acc.2.2 ++ [Pool.KLog.horseErr rid row.horse_id]))
        acc).2.2 =
      acc.2.2 ++ (result.filterMap fun row =>
        match o.loadHorse row.horse_id with
        | .ok _ => none
        | .error _ => some (Pool.KLog.horseErr rid row.horse_id)) := by
  intro result
  induction result with
  | nil => intro acc; simp
  | cons row rest ih =>
    intro acc
    rw [List.foldl_cons, List.filterMap_cons]
    cases hh : o.loadHorse row.horse_id with
    | ok p =>
      cases p with
      | mk h hi => simp only [hh, ih]
    | error err => simp only [hh, ih, List.append_assoc, List.cons_append,
        List.nil_append, List.singleton_append]

/-- A task whose external calls all succeed emits no log line. -/
theorem pool_allOk_no_log (o : Pool.KOracle) (rid : String)
    (h : Pool.allOk o rid = true) : poolLog o rid = [] := by
  unfold Pool.allOk at h
  unfold poolLog Pool.loadAllData
  cases hres : o.loadResult rid with
  | error err => rw [hres] at h; simp at h
  | ok pr =>
    rw [hres] at h
    cases pr with
    | mk race result =>
      simp only at h ⊢
      rw [Bool.and_eq_true] at h
      obtain ⟨hodds, hhor⟩ := h
      cases hod : o.loadOdds rid with
      | error err => rw [hod] at hodds; simp at hodds
      | ok od =>
        simp only [hod]
        rw [pool_horse_fold_log o rid result ([], [], [])]
        have hnil : (result.filterMap fun row =>
            match o.loadHorse row.horse_id with
            | .ok _ => none
            | .error _ => some (Pool.KLog.horseErr rid row.horse_id)) = [] := by
          rw [List.filterMap_eq_nil_iff]
          intro row hrow
          have := List.all_eq_true.mp hhor row hrow
          cases hh : o.loadHorse row.horse_id with
          | ok p => rfl
          | error err => rw [hh] at this; simp at this
        rw [hnil]
        rfl

/-- A task whose primary fetch fails contributes empty lists and exactly one
log line. -/
theorem pool_failed_task (o : Pool.KOracle) (rid e : String)
    (h : o.loadResult rid = .error e) :
    poolData o rid = Pool.DataMap.empty ∧ poolLog o rid = [Pool.KLog.resultErr rid] := by
  unfold poolData poolLog Pool.loadAllData
  rw [h]
  exact ⟨rfl, rfl⟩

/-- With no duplicates, filtering a list that contains `bad` down to the
elements equal to `bad` gives exactly `[bad]`. -/
theorem nodup_filter_eq_singleton {α : Type} [DecidableEq α] :
    ∀ (l : List α) (bad : α), l.Nodup → bad ∈ l → l.filter (· = bad) = [bad] := by
  intro l
  induction l with
  | nil => intro bad _ hmem; simp at hmem
  | cons x rest ih =>
    intro bad hnd hmem
    rw [List.nodup_cons] at hnd
    rw [List.filter_cons]
    by_cases hx : x = bad
    · subst hx
      rw [if_pos (by simp)]
      have : rest.filter (· = x) = [] := by
        rw [List.filter_eq_nil_iff]
        intro y hy
        simp only [decide_eq_true_eq]
        intro hyx
        exact hnd.1 (hyx ▸ hy)
      rw [this]
    · rw [if_neg (by simp [hx])]
      rcases List.mem_cons.mp hmem with h | h
      · exact absurd h.symm hx
      · exact ih bad hnd.2 h

/-- C4: fault isolation of the fetch worker pool of
`src/keiba_scraper/run.py`.  For any submitted ids without duplicates and any
completion order, if exactly one task's primary fetch fails (every other
task's external calls all succeed), then every one of the five aggregated
record lists is, up to completion-order permutation, exactly the
concatenation of the successful tasks' records — nothing from the other
`N - 1` tasks is lost — and the error log holds exactly one entry, naming the
failed identifier.  The loop structure processes every submitted id, so the
pool drains to completion and a failure never affects a sibling task. -/
theorem c4_pool_fault_isolation (o : Pool.KOracle) (ids order : List String)
    (bad e : String) (hperm : order.Perm ids) (hnd : ids.Nodup) (hbad : bad ∈ ids)
    (hfail : o.loadResult bad = .error e)
    (hok : ∀ rid ∈ ids, rid ≠ bad → Pool.allOk o rid = true) :
    ((Pool.fetchChunkData o order).1.race).Perm
      ((ids.filter (· ≠ bad)).flatMap fun rid => (poolData o rid).race) ∧
    ((Pool.fetchChunkData o order).1.result).Perm
      ((ids.filter (· ≠ bad)).flatMap fun rid => (poolData o rid).result) ∧
    ((Pool.fetchChunkData o order).1.horse).Perm
      ((ids.filter (· ≠ bad)).flatMap fun rid => (poolData o rid).horse) ∧
    ((Pool.fetchChunkData o order).1.history).Perm
      ((ids.filter (· ≠ bad)).flatMap fun rid => (poolData o rid).history) ∧
    ((Pool.fetchChunkData o order).1.odds).Perm
      ((ids.filter (· ≠ bad)).flatMap fun rid => (poolData o rid).odds) ∧
    (Pool.fetchChunkData o order).2 = [Pool.KLog.resultErr bad] := by
  have hbadData := (pool_failed_task o bad e hfail).1
  have hbadLog := (pool_failed_task o bad e hfail).2
  have hcomp : ∀ (β : Type) (g : Pool.DataMap → List β),
      (g (poolData o bad) = []) →
      (order.flatMap fun rid => g (poolData o rid)).Perm
        ((ids.filter (· ≠ bad)).flatMap fun rid => g (poolData o rid)) := by
    intro β g hg
    have hdrop : (order.flatMap fun rid => g (poolData o rid)) =
        ((order.filter (· ≠ bad)).flatMap fun rid => g (poolData o rid)) := by
      apply flatMap_filter_contrib
      intro x _ hx
      have : x = bad := by
        by_contra hne
        simp [hne] at hx
      rw [this, hg]
    rw [hdrop]
    exact (hperm.filter (· ≠ bad)).flatMap_right _
  have hfetch := pool_fetch_flat o order
  have hlog : (order.flatMap fun rid => poolLog o rid) = [Pool.KLog.resultErr bad] := by
    have hdrop : (order.flatMap fun rid => poolLog o rid) =
        ((order.filter (· = bad)).flatMap fun rid => poolLog o rid) := by
      apply flatMap_filter_contrib
      intro x hx hxb
      have hxne : x ≠ bad := by
        intro hcontra
        rw [hcontra] at hxb
        simp at hxb
      exact pool_allOk_no_log o x (hok x (hperm.mem_iff.mp hx) hxne)
    have hfilter : order.filter (· = bad) = [bad] := by
      have hnd' : order.Nodup := hperm.nodup_iff.mpr hnd
      exact nodup_filter_eq_singleton order bad hnd' (hperm.mem_iff.mpr hbad)
    rw [hdrop, hfilter, List.flatMap_cons, List.flatMap_nil, List.append_nil, hbadLog]
  refine ⟨?_, ?_, ?_, ?_, ?_, ?_⟩
  · rw [hfetch]
    exact hcomp String (fun d => d.race) (by rw [hbadData]; rfl)
  · rw [hfetch]
    exact hcomp Pool.RRow (fun d => d.result) (by rw [hbadData]; rfl)
  · rw [hfetch]
    exact hcomp String (fun d => d.horse) (by rw [hbadData]; rfl)
  · rw [hfetch]
    exact hcomp String (fun d => d.history) (by rw [hbadData]; rfl)
  · rw [hfetch]
    exact hcomp String (fun d => d.odds) (by rw [hbadData]; rfl)
  · rw [hfetch]
    exact hlog

/-- Concrete oracle for the C4 witness: the fetch of id `"b"` raises, every
other call succeeds. -/
def c4O : Pool.KOracle where
  loadResult := fun rid =>
    if rid = "b" then .error "boom" else .ok (["R" ++ rid], [⟨"h" ++ rid, "p"⟩])
  loadOdds := fun rid => .ok ["O" ++ rid]
  loadHorse := fun hid => .ok (["H" ++ hid], ["Y" ++ hid])

/-- The three submitted identifiers for the C4 witness. -/
def c4Ids : List String := ["a", "b", "c"]

/-- A completion order different from the submission order. -/
def c4Order : List String := ["c", "a", "b"]

/-- C4 witness: the fault-isolation theorem applied to three concrete tasks
of which exactly `"b"` fails, completing out of submission order. -/
theorem c4_pool_fault_isolation_witness :
    ((Pool.fetchChunkData c4O c4Order).1.race).Perm
      ((c4Ids.filter (· ≠ "b")).flatMap fun rid => (poolData c4O rid).race) ∧
    (Pool.fetchChunkData c4O c4Order).2 = [Pool.KLog.resultErr "b"] :=
  ⟨(c4_pool_fault_isolation c4O c4Ids c4Order "b" "boom" (by decide) (by decide)
      (by decide) (by decide) (by decide)).1,
   (c4_pool_fault_isolation c4O c4Ids c4Order "b" "boom" (by decide) (by decide)
      (by decide) (by decide) (by decide)).2.2.2.2.2⟩
